import Mathlib

/-!
Verification of the speaker-event-finder microservice
(`src/services/search_service.py`, `src/services/extract_service.py`,
`src/utils/dedupe.py`, `src/routes/api.py`, `src/config/settings.py`).

Shallow embedding conventions:
* Python dict fields that may be missing are `Option` fields; `d.get(k)`
  returns `none` when absent (a stored JSON `null` is likewise modelled
  as `none`).
* Python string truthiness (`not s`) is `pyFalsy`.
* Python `datetime.date` values are modelled as `(year, month, day)`
  triples, compared through the order-preserving encoding
  `y * 10000 + m * 100 + d`.
* The external collaborators (Firecrawl search client, OpenAI model,
  thread-pool completion order) are parameters of the embedded
  functions; the embedding of each stage is otherwise taken line by
  line from the source.
-/

/-- Python truthiness of an optional string: `None` and `""` are falsy. -/
def pyFalsy (o : Option String) : Bool :=
  match o with
  | none => true
  | some s => s = ""

/-- Python `bool(o)` for an optional string. -/
def pyTruthyOpt (o : Option String) : Bool := !(pyFalsy o)

/-- Lexicographic-by-code-point strict comparison of char lists: Python's `<`
on strings. -/
def charListLt : List Char → List Char → Bool
  | [], [] => false
  | [], _ :: _ => true
  | _ :: _, [] => false
  | a :: as, b :: bs =>
    if a.toNat < b.toNat then true
    else if b.toNat < a.toNat then false
    else charListLt as bs

/-- Python's `<=` on strings (code-point lexicographic). -/
def strLe (a b : String) : Bool := !(charListLt b.toList a.toList)

/-- Stable insertion of `x` in front of the first element it compares
`le`-before-or-equal to. -/
def insertLe {α : Type} (le : α → α → Bool) (x : α) : List α → List α
  | [] => [x]
  | y :: l => if le x y then x :: y :: l else y :: insertLe le x l

/-- Stable insertion sort.  Python's `list.sort` / `sorted` (Timsort) is a
stable sort; for a total preorder `le` every stable sort produces the same
output, so this models it exactly (also with `reverse=True`, which keeps the
original order of ties and equals a stable sort under the flipped comparator). -/
def insertionSortLe {α : Type} (le : α → α → Bool) : List α → List α
  | [] => []
  | x :: l => insertLe le x (insertionSortLe le l)

/-- Splitting worker: cut the char list at every separator (keeping empty
pieces), accumulating the current piece reversed. -/
def splitPredAux (p : Char → Bool) : List Char → List Char → List (List Char)
  | [], cur => [cur.reverse]
  | c :: rest, cur =>
    if p c then cur.reverse :: splitPredAux p rest []
    else splitPredAux p rest (c :: cur)

/-- Split a string at every character satisfying `p`, keeping empty pieces:
Python's `s.split(sep)` for a one-character separator. -/
def splitPred (p : Char → Bool) (s : String) : List String :=
  (splitPredAux p s.toList []).map String.mk

/-- Python's `s.strip()`: drop whitespace from both ends. -/
def pytrim (s : String) : String :=
  String.mk (((s.toList.dropWhile Char.isWhitespace).reverse.dropWhile Char.isWhitespace).reverse)

/-- Python's `s.lower()` (ASCII case folding suffices for this code base). -/
def pylower (s : String) : String := String.mk (s.toList.map Char.toLower)

/-- Python's `"\n".join(parts)`. -/
def joinNewline : List String → String
  | [] => ""
  | [a] => a
  | a :: b :: t => a ++ "\n" ++ joinNewline (b :: t)

/-- Numeric value of a decimal digit string. -/
def digitsVal (l : List Char) : Nat := l.foldl (fun a c => a * 10 + (c.toNat - 48)) 0

/-- Helper for Python's substring test `pat in hay` on char lists. -/
def listHasSub (pat : List Char) : List Char → Bool
  | [] => pat.isEmpty
  | c :: rest => pat.isPrefixOf (c :: rest) || listHasSub pat rest

/-- Python's substring operator `pat in hay` for strings. -/
def strHasSub (hay pat : String) : Bool := listHasSub pat.toList hay.toList

/-- Python `sorted` on a list of strings (lexicographic by code point). -/
def sortStrings (l : List String) : List String :=
  insertionSortLe strLe l

/-- Python `sorted(list(set(a) | set(b)))`: the sorted list of the distinct
elements of the union.  Since all elements are distinct after `dedup` and
string order is total, the sorted result is the unique sorted enumeration
of the union set, independent of the order `dedup` produces. -/
def sortedUnion (a b : List String) : List String :=
  sortStrings (a ++ b).dedup

/-- Gregorian leap-year rule, as used by `datetime.date`. -/
def isLeapYear (y : Nat) : Bool :=
  y % 4 == 0 && (y % 100 != 0 || y % 400 == 0)

/-- Length of a month, as validated by `datetime.date`. -/
def daysInMonth (y m : Nat) : Nat :=
  if m == 2 then (if isLeapYear y then 29 else 28)
  else if m == 4 || m == 6 || m == 9 || m == 11 then 30
  else 31

/-- Embedding of `datetime.strptime(s, "%Y-%m-%d").date()`.

CPython matches `%Y` against exactly four digits, `%m` against `1[0-2]|0[1-9]|[1-9]`
(equivalently: one or two digits with value 1..12) and `%d` against
`3[01]|[12]\d|0[1-9]|[1-9]` (one or two digits with value 1..31), requires the
whole string to be consumed, and then `datetime.date` validates the day against
the month length and the year against `MINYEAR = 1`.  Returns `none` exactly
when CPython raises `ValueError`. -/
def parseDate (s : String) : Option (Nat × Nat × Nat) :=
  match splitPredAux (fun c => c = '-') s.toList [] with
  | [ys, ms, ds] =>
    let y := digitsVal ys
    let m := digitsVal ms
    let d := digitsVal ds
    if ys.all Char.isDigit ∧ ys.length = 4 ∧ 1 ≤ y ∧
       ms.all Char.isDigit ∧ 1 ≤ ms.length ∧ ms.length ≤ 2 ∧ 1 ≤ m ∧ m ≤ 12 ∧
       ds.all Char.isDigit ∧ 1 ≤ ds.length ∧ ds.length ≤ 2 ∧ 1 ≤ d ∧
       d ≤ daysInMonth y m
    then some (y, m, d) else none
  | _ => none

/-- Order-preserving encoding of a calendar date (month < 100, day < 100). -/
def encodeDate (d : Nat × Nat × Nat) : Nat := d.1 * 10000 + d.2.1 * 100 + d.2.2

/-- A raw search result (`RawResult` dict): `url`, `markdown`, and the
`_meta.query` / `_meta.provider` tags added by `_execute_single_search`. -/
structure Item where
  url : Option String
  markdown : Option String
  metaQuery : Option String
  metaProvider : Option String
deriving DecidableEq

/-- The JSON value found under a candidate event's `speakers` key:
absent/null (falsy), a string, a list of strings, or some other value with
the given truthiness and `str()` rendering. -/
inductive SpeakVal where
  | absent
  | str (s : String)
  | strList (l : List String)
  | other (truthy : Bool) (rendering : String)
deriving DecidableEq

/-- A candidate event object from the model's JSON response. -/
structure CandEvent where
  event_name : Option String
  date : Option String
  location : Option String
  url : Option String
  speakers : SpeakVal
  event_type : Option String
deriving DecidableEq

/-- An event record as produced by `_parse_and_validate_response`
(the `OrderedDict` projection): `speakers` is always a list and
`event_type` always a string there. -/
structure OutEvent where
  event_name : Option String
  date : Option String
  location : Option String
  url : Option String
  speakers : List String
  event_type : String
deriving DecidableEq

/-! ## `src/utils/dedupe.py` -/

/-- `_norm` from `dedupe.py`: `(s or "").strip().lower()`. -/
def pynorm (s : Option String) : String := pylower (pytrim (s.getD ""))

/-- `_key` from `dedupe.py`: the normalized (name, date, location) triple. -/
def dkey (e : OutEvent) : String × String × String :=
  (pynorm e.event_name, pynorm e.date, pynorm e.location)

/-- The merge performed by `dedupe_events` when a later event has the same
key as the kept record: speakers are unioned and re-sorted; `url` and
`location` are copied from the duplicate only when the kept record's field
is falsy and the duplicate's is truthy. -/
def merge_into (existing dup : OutEvent) : OutEvent :=
  let e1 := { existing with speakers := sortedUnion existing.speakers dup.speakers }
  let e2 := if pyFalsy e1.url ∧ pyTruthyOpt dup.url then { e1 with url := dup.url } else e1
  if pyFalsy e2.location ∧ pyTruthyOpt dup.location then { e2 with location := dup.location }
  else e2

/-- One step of `dedupe_events`' loop: the insertion-ordered dict `seen`
is an association list; a new key is appended, an existing key's record
is merged in place. -/
def insert_event (acc : List ((String × String × String) × OutEvent)) (e : OutEvent) :
    List ((String × String × String) × OutEvent) :=
  if (acc.map Prod.fst).contains (dkey e) then
    acc.map (fun p => if p.1 = dkey e then (p.1, merge_into p.2 e) else p)
  else
    acc ++ [(dkey e, e)]

/-- `dedupe_events` from `dedupe.py`: fold the events into the insertion-ordered
`seen` dict, then return `list(seen.values())`. -/
def dedupe_events (events : List OutEvent) : List OutEvent :=
  (events.foldl insert_event []).map Prod.snd

/-! ## `src/services/extract_service.py` -/

/-- Speaker normalization in `_normalize_event_data`: a string is wrapped in a
singleton; a list is left unchanged; any other value becomes `[str(v)]` when
truthy and `[]` when falsy (in particular an absent/null `speakers` yields `[]`). -/
def normalizeSpeakers (v : SpeakVal) : List String :=
  match v with
  | .str s => [s]
  | .strList l => l
  | .absent => []
  | .other truthy rendering => if truthy then [rendering] else []

/-- Event-type normalization in `_normalize_event_data`.  Known synonyms map to
`online` / `in-person`; when the lowercased value is already `online` or
`in-person` the stored value is left untouched (note: the original casing is
kept in that case); otherwise the type is guessed from location keywords,
defaulting to `online`. -/
def normalizedEventType (e : CandEvent) : String :=
  let raw := pylower (e.event_type.getD "")
  if raw = "virtual" ∨ raw = "remote" ∨ raw = "webinar" then "online"
  else if raw = "live" ∨ raw = "physical" ∨ raw = "venue" ∨ raw = "conference" then "in-person"
  else if raw ≠ "online" ∧ raw ≠ "in-person" then
    let location := pylower (e.location.getD "")
    if strHasSub location "virtual" ∨ strHasSub location "online" ∨ strHasSub location "zoom" ∨
       strHasSub location "webinar" ∨ strHasSub location "remote" then "online"
    else if strHasSub location "hotel" ∨ strHasSub location "center" ∨ strHasSub location "venue" ∨
            strHasSub location "hall" ∨ strHasSub location "address" then "in-person"
    else "online"
  else e.event_type.getD ""

/-- `_normalize_event_data`: set the normalized `event_type` and `speakers`
fields on the event (in-place mutation in the source). -/
def normalize_event_data (e : CandEvent) : CandEvent :=
  { e with event_type := some (normalizedEventType e),
           speakers := .strList (normalizeSpeakers e.speakers) }

/-- The per-candidate validation of `_parse_and_validate_response`: the event
survives iff its `date` value is present, truthy, parses as `%Y-%m-%d`, and is
on or after `today`.  (Everything else in the per-event `try` block is total on
the typed model.) -/
def hasValidFutureDate (today : Nat) (e : CandEvent) : Bool :=
  match e.date with
  | none => false
  | some s =>
    if s = "" then false
    else
      match parseDate s with
      | none => false
      | some d => decide (today ≤ encodeDate d)

/-- Sort key of `datetime.strptime(x["date"], "%Y-%m-%d")`, defaulting to 0 for
unparseable dates (the source would raise there; the pipeline only sorts events
whose dates already passed validation). -/
def dateSortKey (s : Option String) : Nat :=
  ((parseDate (s.getD "")).map encodeDate).getD 0

/-- Comparator of the stable date sort in `_parse_and_validate_response`,
with `reverse = (sort_order == "desc")`.  A stable sort with `reverse=True`
keeps the original order of equal keys, which is exactly a stable merge sort
with the flipped comparator. -/
def candDateLe (sort_order : String) (a b : CandEvent) : Bool :=
  if sort_order = "desc" then decide (dateSortKey b.date ≤ dateSortKey a.date)
  else decide (dateSortKey a.date ≤ dateSortKey b.date)

/-- The final `OrderedDict` projection of `_parse_and_validate_response`.
The `get` defaults (`[speaker_name]`, `"unknown"`) are kept although they are
unreachable after `_normalize_event_data` has run. -/
def projectEvent (speaker_name : String) (e : CandEvent) : OutEvent :=
  { event_name := e.event_name
    date := e.date
    location := e.location
    url := e.url
    speakers := match e.speakers with | .strList l => l | _ => [speaker_name]
    event_type := e.event_type.getD "unknown" }

/-- `_parse_and_validate_response`, applied to the already-decoded `events`
array of the model response (`json.loads` failures are handled by the caller
`extract_events`): filter-and-normalize, stable date sort, optional
event-type filter (`if event_type:` is a truthiness test), field projection. -/
def parse_and_validate_response (response : List CandEvent) (speaker_name : String)
    (event_type : Option String) (sort_order : String) (today : Nat) : List OutEvent :=
  let future_events := response.filterMap (fun e =>
    if hasValidFutureDate today e then some (normalize_event_data e) else none)
  let sorted := insertionSortLe (candDateLe sort_order) future_events
  let filtered :=
    match event_type with
    | none => sorted
    | some t => if t = "" then sorted else sorted.filter (fun e => e.event_type = some t)
  filtered.map (projectEvent speaker_name)

/-- `extract_events`: the OpenAI client and call are external; `api = none`
models a missing client, `some (.error ())` any exception raised by the call or
by JSON decoding (all swallowed, returning `[]`), and `some (.ok resp)` a
response decoding to the given events array. -/
def extract_events (api : Option (Except Unit (List CandEvent))) (speaker_name : String)
    (event_type : Option String) (sort_order : String) (today : Nat) : List OutEvent :=
  match api with
  | none => []
  | some (.error _) => []
  | some (.ok resp) => parse_and_validate_response resp speaker_name event_type sort_order today

/-- Python's `enumerate`, used for batch indices. -/
def enumerateFrom {α : Type} (i : Nat) : List α → List (Nat × α)
  | [] => []
  | b :: rest => (i, b) :: enumerateFrom (i + 1) rest

/-- Chunking worker for `_create_source_batches`; the fuel argument (the
input's length at the top call) only serves structural termination and never
runs out when `batch_size ≥ 1`. -/
def create_batches_fuel (batch_size max_sources : Nat) : Nat → List Item → List (List Item)
  | 0, _ => []
  | _, [] => []
  | fuel + 1, l =>
    if batch_size = 0 then []
    else ((l.take batch_size).take max_sources) ::
      create_batches_fuel batch_size max_sources fuel (l.drop batch_size)

/-- `_create_source_batches`: consecutive slices of `batch_size`, each capped
at `max_sources` (`batch[:MAX_SOURCES_PER_BATCH]`; excess sources are dropped,
not redistributed).  A zero `batch_size` makes `range` raise in Python; it is
modelled as producing no batches and is never reached (the configured size is
positive). -/
def create_source_batches (search_results : List Item) (batch_size max_sources : Nat) :
    List (List Item) :=
  create_batches_fuel batch_size max_sources search_results.length search_results

/-- `_process_batches_concurrently`: one worker per batch; a batch whose worker
raises contributes nothing; completed results are concatenated.  The completion
order of `as_completed` is modelled as submission order (the concrete order
only permutes the concatenation; every theorem below holds for the outcomes as
listed).  `oracle i b` is the outcome of `process_single_batch(i, b)`. -/
def process_batches_concurrently (oracle : Nat → List Item → Except Unit (List OutEvent))
    (batches : List (List Item)) : List OutEvent :=
  (enumerateFrom 0 batches).foldl (fun acc p =>
    match oracle p.1 p.2 with
    | .ok evs => acc ++ evs
    | .error _ => acc) []

/-- The dedupe key of `_deduplicate_and_sort_events`:
`(event_name.lower().strip(), date, tuple(sorted(speakers)))`. -/
def batchKey (e : OutEvent) : String × String × List String :=
  (pytrim (pylower (e.event_name.getD "")), e.date.getD "", sortStrings e.speakers)

/-- The first pass of `_deduplicate_and_sort_events`: keep the first occurrence
of every `batchKey`, discard every later duplicate, merge nothing.  The `seen`
set is carried as a list of keys. -/
def keep_first_by_key (events : List OutEvent) : List OutEvent :=
  (events.foldl
    (fun (p : List (String × String × List String) × List OutEvent) e =>
      if p.1.contains (batchKey e) then p else (p.1 ++ [batchKey e], p.2 ++ [e]))
    ([], [])).2

/-- Comparator of the final date sort of `_deduplicate_and_sort_events`. -/
def outDateLe (sort_order : String) (a b : OutEvent) : Bool :=
  if sort_order = "desc" then decide (dateSortKey b.date ≤ dateSortKey a.date)
  else decide (dateSortKey a.date ≤ dateSortKey b.date)

/-- `_deduplicate_and_sort_events`: first-occurrence dedupe, then stable sort
by parsed date. -/
def deduplicate_and_sort_events (all_events : List OutEvent) (sort_order : String) :
    List OutEvent :=
  insertionSortLe (outDateLe sort_order) (keep_first_by_key all_events)

/-- `extract_events_in_batches`: empty input short-circuits; otherwise batch,
process concurrently, then deduplicate and sort. -/
def extract_events_in_batches (oracle : Nat → List Item → Except Unit (List OutEvent))
    (search_results : List Item) (batch_size max_sources : Nat) (sort_order : String) :
    List OutEvent :=
  if search_results = [] then []
  else deduplicate_and_sort_events
    (process_batches_concurrently oracle (create_source_batches search_results batch_size max_sources))
    sort_order

/-! ## `src/services/search_service.py` — content combiner -/

/-- `_prioritize_sources_by_accuracy.get_source_priority`: additive score from
speaker mention, query/url markers, quality vocabulary and near-term year
tokens, computed on lowercased fields with default `""`. -/
def get_source_priority (speaker_name : Option String) (r : Item) : Nat :=
  let query := pylower (r.metaQuery.getD "")
  let url := pylower (r.url.getD "")
  let content := pylower (r.markdown.getD "")
  let p1 :=
    if (match speaker_name with
        | none => false
        | some s => s ≠ "" && strHasSub content (pylower s)) then 10 else 0
  let p2 :=
    if strHasSub query "official" ∨ strHasSub url ".com/events" ∨
       strHasSub url "/calendar" ∨ strHasSub url "/schedule" then 5
    else if strHasSub query "eventbrite" ∨ strHasSub query "meetup" then 3
    else if strHasSub query "speaker bureau" ∨ strHasSub query "confirmed" then 4
    else 0
  let p3 :=
    if strHasSub content "speaker" ∨ strHasSub content "presenter" ∨
       strHasSub content "keynote" ∨ strHasSub content "featured" then 2 else 0
  let p4 :=
    if strHasSub content "2025" ∨ strHasSub content "2026" ∨
       strHasSub content "upcoming" then 1 else 0
  p1 + p2 + p3 + p4

/-- The sort order of `_prioritize_sources_by_accuracy`: ascending in the key
`(-priority, -len(markdown))`, i.e. higher priority first, longer content first
within a priority.  Python's sort and `List.mergeSort` are both stable for
this total preorder, so they agree. -/
def priorityLe (speaker_name : Option String) (a b : Item) : Bool :=
  let pa := get_source_priority speaker_name a
  let pb := get_source_priority speaker_name b
  decide (pb < pa ∨ (pa = pb ∧ (b.markdown.getD "").length ≤ (a.markdown.getD "").length))

/-- `_prioritize_sources_by_accuracy`. -/
def prioritize_sources_by_accuracy (results : List Item) (speaker_name : Option String) :
    List Item :=
  insertionSortLe (priorityLe speaker_name) results

/-- `simple_combine_markdown` takes the parameter `raw_results` but its loop
iterates over the name `results`, which is not defined in the function or at
module scope of `search_service.py`; every call therefore raises `NameError`
before producing anything.  The embedding returns the error unconditionally. -/
def simple_combine_markdown (_raw_results : List Item) : Except Unit String := .error ()

/-- `source_type = query.split()[0] if " " in query else "general"`.
`none` models the `IndexError` raised when the query contains a space but
consists only of whitespace (so `query.split()` is empty). -/
def sourceTypeOf (query : String) : Option String :=
  if query.toList.contains ' ' then
    ((splitPred (fun c => c.isWhitespace) query).filter (fun t => t ≠ "")).head?
  else some "general"

/-- The `source_block` string whose length is charged against the budget. -/
def sourceBlock (query md : String) : String :=
  "Source: " ++ query ++ "\nContent: " ++ md ++ "\n---\n"

/-- Truthiness of `speaker_name and speaker_name.lower() in md.lower()`. -/
def mentionFlag (speaker_name : Option String) (md : String) : Bool :=
  match speaker_name with
  | none => false
  | some s => s ≠ "" && strHasSub (pylower md) (pylower s)

/-- The `str()` rendering of `has_speaker_mention` interpolated into the
truncation notice: `None` when `speaker_name` is null, `""` when it is the
empty string (Python short-circuits to the falsy operand), else `True`/`False`. -/
def mentionRendering (speaker_name : Option String) (md : String) : String :=
  match speaker_name with
  | none => "None"
  | some s =>
    if s = "" then ""
    else if strHasSub (pylower md) (pylower s) then "True" else "False"

/-- The truncation notice appended to a clipped source body. -/
def truncationMarker (flag : String) : String :=
  "\n[SOURCE TRUNCATED FOR TOKEN LIMIT - Speaker mentioned: " ++ flag ++ "]"

/-- The omission summary appended when the next source does not fit and cannot
be truncated in. -/
def omissionSummary (omitted mentions : Nat) : String :=
  "\n[CONTENT OPTIMIZED FOR ACCURACY - " ++ toString omitted ++
    " additional sources omitted, " ++ toString mentions ++
    " sources with explicit speaker mentions included]"

/-- Loop state of `smart_combine_markdown`: the accumulated lines, the running
`total_chars`, `sources_included`, the `source_types` set (as a list) and the
`speaker_mentions` counter. -/
structure CombineState where
  content : List String
  total_chars : Nat
  sources_included : Nat
  source_types : List String
  speaker_mentions : Nat
deriving DecidableEq

/-- `source_types.add(t)` on the list model of the set. -/
def addSourceType (ts : List String) (t : String) : List String :=
  if ts.contains t then ts else ts ++ [t]

/-- The main loop of `smart_combine_markdown`, over the already prioritized
results.  `total_sources` is `len(sorted_results)` (used by the omission
summary).  Branches, in source order: skip blank bodies; compute `source_type`
(may raise, hence `Except`); count a speaker mention; if the block would
overflow and something is already included, either emit a truncated prefix of
a high-value source (`remaining_chars > 3000`, i.e. `total + 3400 < max`) and
stop, or emit the omission summary and stop; otherwise append the block and
continue. -/
def smart_combine_loop (speaker_name : Option String) (max_chars total_sources : Nat) :
    List Item → CombineState → Except Unit CombineState
  | [], st => .ok st
  | r :: rest, st =>
    let md := r.markdown.getD ""
    if pytrim md = "" then smart_combine_loop speaker_name max_chars total_sources rest st
    else
      let query := r.metaQuery.getD "N/A"
      match sourceTypeOf query with
      | none => .error ()
      | some source_type =>
        let block := sourceBlock query md
        let mention := mentionFlag speaker_name md
        let st1 :=
          if mention then { st with speaker_mentions := st.speaker_mentions + 1 } else st
        if max_chars < st1.total_chars + block.length ∧ 0 < st1.sources_included then
          if st1.total_chars + 3400 < max_chars ∧
             (mention ∨ ¬ st1.source_types.contains source_type) then
            let remaining := max_chars - st1.total_chars - 400
            let truncated := String.mk (md.toList.take remaining) ++
              truncationMarker (mentionRendering speaker_name md)
            .ok { st1 with
              content := st1.content ++ ["Source: " ++ query, "Content: " ++ truncated, "---"]
              sources_included := st1.sources_included + 1
              source_types := addSourceType st1.source_types source_type
              speaker_mentions :=
                if mention then st1.speaker_mentions + 1 else st1.speaker_mentions }
          else
            .ok { st1 with
              content := st1.content ++
                [omissionSummary (total_sources - st1.sources_included) st1.speaker_mentions] }
        else
          smart_combine_loop speaker_name max_chars total_sources rest
            { st1 with
              content := st1.content ++ ["Source: " ++ query, "Content: " ++ md, "---"]
              total_chars := st1.total_chars + block.length
              sources_included := st1.sources_included + 1
              source_types := addSourceType st1.source_types source_type }

/-- `smart_combine_markdown`: with a falsy `max_chars` (None or 0) it delegates
to `simple_combine_markdown` (which always raises, see above); otherwise it
prioritizes the sources and runs the budgeted loop, joining the collected lines
with newlines. -/
def smart_combine_markdown (results : List Item) (max_chars : Option Nat)
    (speaker_name : Option String) : Except Unit String :=
  if max_chars = none ∨ max_chars = some 0 then simple_combine_markdown results
  else
    let mc := max_chars.getD 0
    let sorted := prioritize_sources_by_accuracy results speaker_name
    (smart_combine_loop speaker_name mc sorted.length sorted ⟨[], 0, 0, [], 0⟩).map
      (fun st => joinNewline st.content)

/-! ## `src/services/search_service.py` and `src/providers/firecrawl_provider.py`
— search fan-out -/

/-- The `_meta` tagging of `_execute_single_search`: `_meta["query"]` and
`_meta["provider"]` are overwritten on every item. -/
def tagItem (query : String) (i : Item) : Item :=
  { i with metaQuery := some query, metaProvider := some "firecrawl" }

/-- `search_firecrawl`: `none` client yields `[]`; an exception of the external
`fc.search` call (including its "no search results" signal) is swallowed,
yielding `[]`; a successful call returns its data unchanged — possibly `None`,
which the caller replaces by `[]`. -/
def search_firecrawl (fc : Option (String → Except Unit (Option (List Item))))
    (query : String) : Option (List Item) :=
  match fc with
  | none => some []
  | some f =>
    match f query with
    | .error _ => some []
    | .ok data => data

/-- `_execute_single_search`: `search_firecrawl(query) or []`, then tag each
item with its provenance. -/
def execute_single_search (fc : Option (String → Except Unit (Option (List Item))))
    (query : String) : List Item :=
  ((search_firecrawl fc query).getD []).map (tagItem query)

/-- One search-intent entry of `settings.SEARCH_PROVIDERS`. -/
structure ProviderEntry where
  name : String
  query : String → String
  query_with_type : String → String → String

/-- Helper for the f-string interpolation `"{speaker}"`. -/
def quoteStr (s : String) : String := "\"" ++ s ++ "\""

/-- `settings.SEARCH_PROVIDERS` with `CURRENT_YEAR = cy`, `NEXT_YEAR = cy + 1`. -/
def search_providers (cy : Nat) : List ProviderEntry :=
  let y := toString cy ++ " " ++ toString (cy + 1)
  [ { name := "general"
      query := fun sp => quoteStr sp ++ " upcoming speaking events " ++ y ++ " confirmed speaker"
      query_with_type := fun sp et =>
        quoteStr sp ++ " upcoming " ++ et ++ " speaking events " ++ y ++ " confirmed speaker" },
    { name := "eventbrite"
      query := fun sp => "site:eventbrite.com " ++ quoteStr sp ++ " speaker upcoming event conference " ++ y
      query_with_type := fun sp et =>
        "site:eventbrite.com " ++ quoteStr sp ++ " " ++ et ++ " speaker event conference " ++ y },
    { name := "meetup"
      query := fun sp => "site:meetup.com " ++ quoteStr sp ++ " speaker event talk " ++ y
      query_with_type := fun sp et =>
        "site:meetup.com " ++ quoteStr sp ++ " " ++ et ++ " speaker event talk " ++ y },
    { name := "official_site"
      query := fun sp => quoteStr sp ++ " official website speaking schedule events calendar " ++ y
      query_with_type := fun sp et =>
        quoteStr sp ++ " official website " ++ et ++ " speaking schedule events calendar " ++ y },
    { name := "conferences"
      query := fun sp => quoteStr sp ++ " keynote speaker conference summit " ++ y ++ " confirmed"
      query_with_type := fun sp et =>
        quoteStr sp ++ " keynote speaker " ++ et ++ " conference summit " ++ y ++ " confirmed" },
    { name := "speaker_bureau"
      query := fun sp => quoteStr sp ++ " speaker bureau speaking engagements bookings " ++ y
      query_with_type := fun sp et =>
        quoteStr sp ++ " speaker bureau " ++ et ++ " speaking engagements bookings " ++ y } ]

/-- `_generate_search_queries`: with a truthy `event_type` and the targeted
feature flag enabled, every entry's typed template is used (all entries define
one); otherwise the generic templates. -/
def generate_search_queries (speaker : String) (event_type : Option String)
    (targeted : Bool) (cy : Nat) : List String :=
  if pyTruthyOpt event_type && targeted then
    (search_providers cy).map (fun p => p.query_with_type speaker (event_type.getD ""))
  else
    (search_providers cy).map (fun p => p.query speaker)

/-- `search_sources_concurrently`: each completed query's results are appended
as its future completes; `completed` lists the queries whose worker finished
before the overall deadline, in completion order (any permutation of any
sub-multiset of the generated queries; abandoned queries contribute nothing).
Each worker's own failures were already swallowed in `execute_single_search`,
and the collection loop further swallows any per-future error, so the function
always returns a list. -/
def search_sources_concurrently (fc : Option (String → Except Unit (Option (List Item))))
    (completed : List String) : List Item :=
  completed.foldl (fun acc q => acc ++ execute_single_search fc q) []

/-! ## `src/routes/api.py` -/

/-- `_validate_input`: the length check is applied to the raw (untrimmed)
`speaker_name`; a falsy `event_type` (absent or empty) skips its enum check.
The kernel of the error messages is kept; the quotes around enum values in the
original messages are omitted.  Returns `none` when the input is accepted. -/
def validate_input (speaker_name event_type : Option String) (sort_order : String) :
    Option (String × Nat) :=
  if pyFalsy speaker_name then some ("speaker_name parameter is required", 400)
  else if pytrim (speaker_name.getD "") = "" then some ("speaker_name cannot be empty", 400)
  else if 100 < (speaker_name.getD "").length then
    some ("speaker_name too long (max 100 chars)", 400)
  else if pyTruthyOpt event_type ∧ event_type ≠ some "online" ∧ event_type ≠ some "in-person" then
    some ("event_type must be online or in-person", 400)
  else if sort_order ≠ "asc" ∧ sort_order ≠ "desc" then
    some ("sort must be asc or desc", 400)
  else none

/-- Result of the `/events` endpoint: body with events, or an error response. -/
inductive ApiResult where
  | ok (events : List OutEvent)
  | err (message : String) (status : Nat)
deriving DecidableEq

/-- `get_events`: read the parameters (`sort` defaults to `"asc"`), validate,
and only then invoke the search workflow.  The workflow (search, extraction,
final dedupe) is a parameter, so that its non-invocation on invalid input is
expressible. -/
def get_events (workflow : String → Option String → String → List OutEvent)
    (speaker_name event_type sort : Option String) : ApiResult :=
  let sort_order := sort.getD "asc"
  match validate_input speaker_name event_type sort_order with
  | some (msg, code) => .err msg code
  | none => .ok (workflow (speaker_name.getD "") event_type sort_order)

/-- `_execute_search_workflow`: concurrent search (raw results and the batch
oracle stand for the external calls), then batch extraction — which ends with
`_deduplicate_and_sort_events` — and only afterwards the key-based
`dedupe_events` merger. -/
def execute_search_workflow (raw_results : List Item)
    (oracle : Nat → List Item → Except Unit (List OutEvent))
    (batch_size max_sources : Nat) (sort_order : String) : List OutEvent :=
  if raw_results = [] then []
  else dedupe_events
    (extract_events_in_batches oracle raw_results batch_size max_sources sort_order)

/-! ## Specification-side definitions (transcribed from the claims, to be
compared with the source embeddings above) -/

/-- The distinct dedupe keys of a list of events, in first-seen order. -/
def first_keys (events : List OutEvent) : List (String × String × String) :=
  events.foldl (fun ks e => if ks.contains (dkey e) then ks else ks ++ [dkey e]) []

/-- The merged record for one key, as described by the claim: the first
occurrence of the key is the kept record, every later occurrence with an equal
key is merged into it in input order. -/
def group_merge (events : List OutEvent) (k : String × String × String) : Option OutEvent :=
  match events.filter (fun e => dkey e = k) with
  | [] => none
  | e :: rest => some (rest.foldl merge_into e)

/-- The association list of (key, merged record) pairs, keys in first-seen
order. -/
def group_acc (events : List OutEvent) : List ((String × String × String) × OutEvent) :=
  (first_keys events).filterMap (fun k => (group_merge events k).map (fun v => (k, v)))

/-- Claim-side description of the deduplicator: exactly one record per distinct
key, in first-seen key order, each record the merge of its whole group. -/
def dedupe_events_spec (events : List OutEvent) : List OutEvent :=
  (first_keys events).filterMap (group_merge events)

/-- Claim-side description of the batch-level dedupe pass: keep an event iff no
earlier event has an equal `batchKey`; discard later duplicates entirely. -/
def keepFirstSpec : List OutEvent → List OutEvent
  | [] => []
  | e :: rest => e :: keepFirstSpec (rest.filter (fun x => batchKey x ≠ batchKey e))
termination_by l => l.length
decreasing_by
  exact Nat.lt_succ_of_le (List.length_filter_le _ _)

/-- Length of `joinNewline l` computed piecewise. -/
def joinLen : List String → Nat
  | [] => 0
  | [a] => a.length
  | a :: b :: t => a.length + 1 + joinLen (b :: t)

/-! ## General lemmas about the embedding's primitives -/

theorem insertLe_perm {α : Type} (le : α → α → Bool) (x : α) (l : List α) :
    (insertLe le x l).Perm (x :: l) := by
  induction l with
  | nil => exact List.Perm.refl _
  | cons y t ih =>
    simp only [insertLe]
    split
    · exact List.Perm.refl _
    · exact (ih.cons y).trans (List.Perm.swap x y t)

theorem insertionSortLe_perm {α : Type} (le : α → α → Bool) (l : List α) :
    (insertionSortLe le l).Perm l := by
  induction l with
  | nil => exact List.Perm.refl _
  | cons x t ih => exact (insertLe_perm le x _).trans (ih.cons x)

theorem mem_insertionSortLe {α : Type} {le : α → α → Bool} {a : α} {l : List α} :
    a ∈ insertionSortLe le l ↔ a ∈ l :=
  (insertionSortLe_perm le l).mem_iff

theorem length_insertionSortLe {α : Type} (le : α → α → Bool) (l : List α) :
    (insertionSortLe le l).length = l.length :=
  (insertionSortLe_perm le l).length_eq

theorem pyFalsy_iff {o : Option String} : pyFalsy o = true ↔ o = none ∨ o = some "" := by
  cases o with
  | none => simp [pyFalsy]
  | some s => simp [pyFalsy]

/-! ## C7 — the unbounded combiner -/

/-- C7: the claim says that with `maxChars` unset the combiner returns the
concatenation of all non-empty result bodies with per-source headers.  In the
code, `simple_combine_markdown` iterates over the undefined name `results`
(its parameter is `raw_results`), so every call — in particular
`smart_combine_markdown` with a falsy `max_chars` — raises `NameError` instead
of returning anything.  This theorem evaluates the embedding at such a call. -/
theorem C7_unset_budget_raises :
    simple_combine_markdown [⟨none, some "hello", some "q", none⟩] = .error () ∧
    smart_combine_markdown [⟨none, some "hello", some "q", none⟩] none none = .error () ∧
    smart_combine_markdown [⟨none, some "hello", some "q", none⟩] (some 0) none = .error () :=
  ⟨rfl, rfl, rfl⟩

/-! ## C5 — failing extraction batches are isolated -/

/-- C5: if, of three extraction batches, the second raises while the first and
third succeed, `extract_events_in_batches` returns exactly the deduplicated,
sorted events of the succeeding batches: the failing batch contributes zero
events and does not abort the call. -/
theorem C5_failing_batch_isolated
    (oracle : Nat → List Item → Except Unit (List OutEvent))
    (raw : List Item) (bs mp : Nat) (so : String)
    (b1 b2 b3 : List Item) (e1 e3 : List OutEvent)
    (hb : create_source_batches raw bs mp = [b1, b2, b3])
    (h1 : oracle 0 b1 = .ok e1)
    (h2 : oracle 1 b2 = .error ())
    (h3 : oracle 2 b3 = .ok e3) :
    extract_events_in_batches oracle raw bs mp so = deduplicate_and_sort_events (e1 ++ e3) so := by
  have hraw : raw ≠ [] := by
    intro h
    subst h
    simp [create_source_batches, create_batches_fuel] at hb
  rw [extract_events_in_batches, if_neg hraw, hb]
  simp [process_batches_concurrently, enumerateFrom, h1, h2, h3]

/-- Witness for C5 at a concrete three-batch run whose middle batch fails. -/
theorem C5_witness :
    extract_events_in_batches
      (fun i _ => if i = 1 then .error () else
        .ok [⟨some (toString i), some "2025-06-01", none, none, ["X"], "online"⟩])
      [⟨none, some "a", none, none⟩, ⟨none, some "b", none, none⟩, ⟨none, some "c", none, none⟩]
      1 10 "asc" =
    deduplicate_and_sort_events
      ([⟨some "0", some "2025-06-01", none, none, ["X"], "online"⟩] ++
       [⟨some "2", some "2025-06-01", none, none, ["X"], "online"⟩]) "asc" :=
  C5_failing_batch_isolated
    (fun i _ => if i = 1 then .error () else
      .ok [⟨some (toString i), some "2025-06-01", none, none, ["X"], "online"⟩])
    [⟨none, some "a", none, none⟩, ⟨none, some "b", none, none⟩, ⟨none, some "c", none, none⟩]
    1 10 "asc"
    [⟨none, some "a", none, none⟩] [⟨none, some "b", none, none⟩] [⟨none, some "c", none, none⟩]
    [⟨some "0", some "2025-06-01", none, none, ["X"], "online"⟩]
    [⟨some "2", some "2025-06-01", none, none, ["X"], "online"⟩]
    (by decide) rfl rfl rfl

/-! ## C4 — search fan-out isolation and size bound -/

theorem foldl_append_length {α : Type} (g : String → List α) :
    ∀ (l : List String) (acc : List α),
      (l.foldl (fun a q => a ++ g q) acc).length =
        acc.length + (l.map (fun q => (g q).length)).sum := by
  intro l
  induction l with
  | nil => intro acc; simp
  | cons q t ih =>
    intro acc
    simp only [List.foldl_cons, List.map_cons, List.sum_cons, ih, List.length_append]
    omega

theorem sublist_sum_le : ∀ {l1 l2 : List Nat}, l1.Sublist l2 → l1.sum ≤ l2.sum := by
  intro l1 l2 h
  induction h with
  | slnil => simp
  | cons a _ ih => simp only [List.sum_cons]; omega
  | cons₂ a _ ih => simp only [List.sum_cons]; omega

/-- C4: for every speaker, event-type filter and provider behavior `fc`, and
for every set of queries completing before the deadline (any sub-multiset of
the generated queries, in any completion order), the fan-out returns a list of
size at most the sum of per-query result counts, and a query whose provider
call raised, signalled no results (`None`) or returned an empty list
contributes nothing. -/
theorem C4_fanout_isolated (fc : Option (String → Except Unit (Option (List Item))))
    (speaker : String) (event_type : Option String) (targeted : Bool) (cy : Nat)
    (completed : List String)
    (hsub : List.Subperm completed (generate_search_queries speaker event_type targeted cy)) :
    (search_sources_concurrently fc completed).length ≤
      ((generate_search_queries speaker event_type targeted cy).map
        (fun q => (execute_single_search fc q).length)).sum ∧
    (∀ q, fc = none → execute_single_search fc q = []) ∧
    (∀ f q, fc = some f →
      (f q = .error () ∨ f q = .ok none ∨ f q = .ok (some [])) →
      execute_single_search fc q = []) := by
  refine ⟨?_, ?_, ?_⟩
  · have hlen : (search_sources_concurrently fc completed).length =
        (completed.map (fun q => (execute_single_search fc q).length)).sum := by
      have h0 := foldl_append_length (execute_single_search fc) completed []
      simpa [search_sources_concurrently] using h0
    rw [hlen]
    obtain ⟨l', hperm, hsl⟩ := hsub
    have h1 : (l'.map (fun q => (execute_single_search fc q).length)).sum =
        (completed.map (fun q => (execute_single_search fc q).length)).sum :=
      (hperm.map _).sum_eq
    have h2 := sublist_sum_le (hsl.map (fun q => (execute_single_search fc q).length))
    omega
  · intro q hf
    subst hf
    rfl
  · intro f q hf hcase
    subst hf
    rcases hcase with h | h | h <;>
      simp [execute_single_search, search_firecrawl, h]

/-- Witness for C4: all six generated queries complete, against a provider
that errors on every call; the returned list is empty and within the bound. -/
theorem C4_witness :
    (search_sources_concurrently (some fun _ => .error ())
        (generate_search_queries "Jane Doe" none false 2025)).length ≤
      ((generate_search_queries "Jane Doe" none false 2025).map
        (fun q => (execute_single_search (some fun _ => .error ()) q).length)).sum ∧
    execute_single_search (some fun _ => .error ()) "anything" = [] := by
  have h := C4_fanout_isolated (some fun _ => .error ()) "Jane Doe" none false 2025
    (generate_search_queries "Jane Doe" none false 2025) (List.Subperm.refl _)
  exact ⟨h.1, h.2.2 _ "anything" rfl (Or.inl rfl)⟩

/-! ## C6 — input validation -/

/-- C6 counterexample: a 101-character name whose trimmed form has length 1.
The claim predicts acceptance (non-blank, at most 100 characters after
trimming, enums fine), but `_validate_input` rejects it, because the code
applies the length check to the raw string (`len(speaker_name) > 100`),
not to the trimmed one. -/
theorem C6_counterexample :
    validate_input (some (String.mk ('a' :: List.replicate 100 ' '))) none "asc" ≠ none ∧
    (pytrim (String.mk ('a' :: List.replicate 100 ' '))).length ≤ 100 ∧
    pytrim (String.mk ('a' :: List.replicate 100 ' ')) ≠ "" ∧
    (String.mk ('a' :: List.replicate 100 ' ')) ≠ "" := by
  refine ⟨?_, ?_, ?_, ?_⟩ <;> decide

/-- C6 (amended): the endpoint rejects with an input error exactly when the
subject name is missing, blank, or longer than 100 characters **before**
trimming, or when a non-empty event-type is outside its enum (an empty
event-type string is falsy and treated as absent), or when the sort parameter
is outside its enum; and on a missing or blank subject name the result is an
error response that does not depend on the search workflow at all (no search
or extraction call is made). -/
theorem C6_amended :
    (∀ sp et so, validate_input sp et so = none ↔
      (sp ≠ none ∧ sp ≠ some "" ∧ pytrim (sp.getD "") ≠ "" ∧ (sp.getD "").length ≤ 100 ∧
       (et = none ∨ et = some "" ∨ et = some "online" ∨ et = some "in-person") ∧
       (so = "asc" ∨ so = "desc"))) ∧
    (∀ wf wf' sp et srt, (sp = none ∨ sp = some "" ∨ pytrim (sp.getD "") = "") →
      get_events wf sp et srt = get_events wf' sp et srt ∧
      ∃ m, get_events wf sp et srt = .err m 400) := by
  constructor
  · intro sp et so
    unfold validate_input
    split_ifs with h1 h2 h3 h4 h5
    · simp only [reduceCtorEq, false_iff, not_and]
      intro hn hs
      rcases pyFalsy_iff.mp h1 with h | h
      · exact absurd h hn
      · exact absurd h hs
    · simp only [reduceCtorEq, false_iff, not_and]
      intro _ _ ht
      exact absurd h2 ht
    · simp only [reduceCtorEq, false_iff, not_and]
      intro _ _ _ hl
      omega
    · simp only [reduceCtorEq, false_iff, not_and]
      intro _ _ _ _ het _
      obtain ⟨ht, hon, hip⟩ := h4
      rcases het with h | h | h | h
      · subst h; simp [pyTruthyOpt, pyFalsy] at ht
      · subst h; simp [pyTruthyOpt, pyFalsy] at ht
      · exact absurd h hon
      · exact absurd h hip
    · simp only [reduceCtorEq, false_iff, not_and]
      intro _ _ _ _ _ hso
      obtain ⟨ha, hd⟩ := h5
      rcases hso with h | h
      · exact absurd h ha
      · exact absurd h hd
    · simp only [true_iff]
      have hsp : sp ≠ none ∧ sp ≠ some "" := by
        constructor <;> intro h <;> subst h <;> simp [pyFalsy] at h1
      refine ⟨hsp.1, hsp.2, h2, by omega, ?_, ?_⟩
      · by_cases hn : et = none
        · exact Or.inl hn
        · by_cases he : et = some ""
          · exact Or.inr (Or.inl he)
          · have ht : pyTruthyOpt et = true := by
              cases et with
              | none => exact absurd rfl hn
              | some t =>
                simp only [pyTruthyOpt, pyFalsy, Bool.not_eq_true']
                simp only [decide_eq_false_iff_not]
                intro h
                exact he (by rw [h])
            rcases not_and_or.mp h4 with h | h
            · exact absurd ht h
            rcases not_and_or.mp h with h | h
            · exact Or.inr (Or.inr (Or.inl (not_not.mp h)))
            · exact Or.inr (Or.inr (Or.inr (not_not.mp h)))
      · rcases not_and_or.mp h5 with h | h
        · exact Or.inl (not_not.mp h)
        · exact Or.inr (not_not.mp h)
  · intro wf wf' sp et srt h
    have hv : ∃ m, validate_input sp et (srt.getD "asc") = some (m, 400) := by
      unfold validate_input
      by_cases hf : pyFalsy sp = true
      · rw [if_pos hf]
        exact ⟨_, rfl⟩
      · have hb : pytrim (sp.getD "") = "" := by
          rcases h with h | h | h
          · subst h; simp [pyFalsy] at hf
          · subst h; simp [pyFalsy] at hf
          · exact h
        rw [if_neg hf, if_pos hb]
        exact ⟨_, rfl⟩
    obtain ⟨m, hm⟩ := hv
    simp only [get_events, hm]
    exact ⟨trivial, m, rfl⟩

/-- Witness for C6 (amended): a valid input is accepted, and on a blank name
two different workflows produce the same error response. -/
theorem C6_witness :
    validate_input (some "Jane Doe") none "asc" = none ∧
    get_events (fun _ _ _ => [⟨some "E", some "2025-06-01", none, none, ["J"], "online"⟩])
        (some "   ") none none =
      get_events (fun _ _ _ => []) (some "   ") none none := by
  constructor
  · exact (C6_amended.1 (some "Jane Doe") none "asc").mpr (by decide)
  · exact (C6_amended.2 (fun _ _ _ => [⟨some "E", some "2025-06-01", none, none, ["J"], "online"⟩])
      (fun _ _ _ => []) (some "   ") none none (Or.inr (Or.inr (by decide)))).1

/-! ## C3 / C9 — extractor validation and normalization -/

theorem filterMap_if_filter {α β : Type} (p : α → Bool) (g : α → β) (l : List α) :
    l.filterMap (fun a => if p a then some (g a) else none) =
      (l.filter p).filterMap (fun a => if p a then some (g a) else none) := by
  induction l with
  | nil => rfl
  | cons c t ih =>
    by_cases hv : p c
    · simp [List.filter_cons, List.filterMap_cons, hv, ih]
    · simp [List.filter_cons, List.filterMap_cons, hv, ih]

/-- Every event of the extractor's output is the projection of the
normalization of some candidate that passed the date validation. -/
theorem parse_and_validate_mem {response : List CandEvent} {speaker : String}
    {etype : Option String} {so : String} {today : Nat} {e : OutEvent}
    (he : e ∈ parse_and_validate_response response speaker etype so today) :
    ∃ c ∈ response, hasValidFutureDate today c = true ∧
      e = projectEvent speaker (normalize_event_data c) := by
  simp only [parse_and_validate_response] at he
  obtain ⟨ce, hce, hproj⟩ := List.mem_map.mp he
  have hsorted : ce ∈ insertionSortLe (candDateLe so)
      (response.filterMap (fun e =>
        if hasValidFutureDate today e then some (normalize_event_data e) else none)) := by
    cases etype with
    | none => exact hce
    | some t =>
      by_cases ht : t = ""
      · subst ht
        simpa using hce
      · have hce' : ce ∈ List.filter (fun e => decide (e.event_type = some t))
            (insertionSortLe (candDateLe so)
              (response.filterMap (fun e =>
                if hasValidFutureDate today e then some (normalize_event_data e) else none))) := by
          simpa [ht] using hce
        exact (List.mem_filter.mp hce').1
  have hfut := mem_insertionSortLe.mp hsorted
  obtain ⟨c, hc, hcf⟩ := List.mem_filterMap.mp hfut
  by_cases hv : hasValidFutureDate today c
  · rw [if_pos hv] at hcf
    exact ⟨c, hc, hv, by rw [← hproj, Option.some.inj hcf]⟩
  · rw [if_neg hv] at hcf
    exact absurd hcf (by simp)

/-- C3: every candidate whose `date` is missing, falsy, unparseable as
`%Y-%m-%d`, or strictly before today is dropped (the output is unchanged when
the input is pre-filtered to the valid-date candidates), and every event the
extractor returns carries a date that parses on or after today. -/
theorem C3_date_validation (response : List CandEvent) (speaker : String)
    (etype : Option String) (so : String) (today : Nat) :
    (∀ e ∈ parse_and_validate_response response speaker etype so today,
      ∃ s d, e.date = some s ∧ parseDate s = some d ∧ today ≤ encodeDate d) ∧
    parse_and_validate_response response speaker etype so today =
      parse_and_validate_response (response.filter (hasValidFutureDate today))
        speaker etype so today := by
  constructor
  · intro e he
    obtain ⟨c, hc, hv, he⟩ := parse_and_validate_mem he
    subst he
    unfold hasValidFutureDate at hv
    split at hv
    · simp at hv
    · rename_i s hd
      split at hv
      · simp at hv
      · split at hv
        · simp at hv
        · rename_i d hp
          exact ⟨s, d, hd ▸ rfl, hp, of_decide_eq_true hv⟩
  · simp only [parse_and_validate_response]
    rw [← filterMap_if_filter]

/-- Witness for C3 at a concrete response with one valid future event. -/
theorem C3_witness :
    ∃ s d, (⟨some "E", some "2025-06-01", none, none, ["Alice"], "online"⟩ : OutEvent).date =
        some s ∧ parseDate s = some d ∧ encodeDate (2025, 1, 1) ≤ encodeDate d :=
  (C3_date_validation [⟨some "E", some "2025-06-01", none, none, .str "Alice", none⟩]
      "Alice" none "asc" (encodeDate (2025, 1, 1))).1
    ⟨some "E", some "2025-06-01", none, none, ["Alice"], "online"⟩ (by decide)

/-- C9 counterexample: a candidate with a valid future date but an absent
`speakers` value survives extraction with `speakers = []` — the output event's
speaker list is empty and does not contain the subject `"Alice"`, refuting the
claim that every output event's speakers list is non-empty and contains the
subject. -/
theorem C9_counterexample :
    (parse_and_validate_response [⟨some "E", some "2025-06-01", none, none, .absent, none⟩]
        "Alice" none "asc" (encodeDate (2025, 1, 1))).map OutEvent.speakers = [[]] := by
  decide

/-- C9 (amended): every event in the extractor's output carries exactly the
normalization of some input candidate's speakers value — a string wrapped in a
singleton, a list passed through unchanged, another truthy value stringified
into a singleton, and an absent/falsy value the empty list.  The result is
always a list, but it need not be non-empty and need not contain the subject
name (the prompt instructs the model to include the subject; the code does not
enforce it). -/
theorem C9_amended (response : List CandEvent) (speaker : String) (etype : Option String)
    (so : String) (today : Nat) (e : OutEvent)
    (he : e ∈ parse_and_validate_response response speaker etype so today) :
    ∃ c ∈ response, e.speakers = normalizeSpeakers c.speakers ∧
      e.event_name = c.event_name ∧ e.date = c.date := by
  obtain ⟨c, hc, _, he⟩ := parse_and_validate_mem he
  subst he
  exact ⟨c, hc, rfl, rfl, rfl⟩

/-- Witness for C9 (amended), also the round-trip of §8 of the spec:
`speakers: "Alice"` is normalized to `["Alice"]`. -/
theorem C9_witness :
    ∃ c ∈ [(⟨some "R", some "2026-03-02", none, none, .str "Alice", none⟩ : CandEvent)],
      (⟨some "R", some "2026-03-02", none, none, ["Alice"], "online"⟩ : OutEvent).speakers =
        normalizeSpeakers c.speakers ∧
      (⟨some "R", some "2026-03-02", none, none, ["Alice"], "online"⟩ : OutEvent).event_name =
        c.event_name ∧
      (⟨some "R", some "2026-03-02", none, none, ["Alice"], "online"⟩ : OutEvent).date = c.date :=
  C9_amended [⟨some "R", some "2026-03-02", none, none, .str "Alice", none⟩]
    "Bob" none "asc" (encodeDate (2025, 1, 1))
    ⟨some "R", some "2026-03-02", none, none, ["Alice"], "online"⟩ (by decide)

/-! ## C10 — the batch-level dedupe pass -/

theorem keepFirstSpec_nil : keepFirstSpec [] = [] := by
  rw [keepFirstSpec]

theorem keepFirstSpec_cons (e : OutEvent) (t : List OutEvent) :
    keepFirstSpec (e :: t) =
      e :: keepFirstSpec (t.filter (fun x => batchKey x ≠ batchKey e)) := by
  rw [keepFirstSpec]

theorem keep_first_aux :
    ∀ (l : List OutEvent) (seen : List (String × String × List String)) (out : List OutEvent),
      (l.foldl (fun (p : List (String × String × List String) × List OutEvent) e =>
        if p.1.contains (batchKey e) then p else (p.1 ++ [batchKey e], p.2 ++ [e]))
        (seen, out)).2 =
      out ++ keepFirstSpec (l.filter (fun e => !(seen.contains (batchKey e)))) := by
  intro l
  induction l with
  | nil =>
    intro seen out
    simp [keepFirstSpec_nil]
  | cons e t ih =>
    intro seen out
    by_cases hc : seen.contains (batchKey e) = true
    · rw [List.foldl_cons, if_pos hc, ih seen out]
      have hm : batchKey e ∈ seen := by simpa using hc
      have hfe : (e :: t).filter (fun x => !(seen.contains (batchKey x))) =
          t.filter (fun x => !(seen.contains (batchKey x))) := by
        rw [List.filter_cons]
        simp [hm]
      rw [hfe]
    · rw [List.foldl_cons, if_neg hc, ih (seen ++ [batchKey e]) (out ++ [e])]
      have hm : batchKey e ∉ seen := by simpa using hc
      have hfe : (e :: t).filter (fun x => !(seen.contains (batchKey x))) =
          e :: t.filter (fun x => !(seen.contains (batchKey x))) := by
        rw [List.filter_cons]
        simp [hm]
      rw [hfe, keepFirstSpec_cons]
      have hff : t.filter (fun x => !((seen ++ [batchKey e]).contains (batchKey x))) =
          (t.filter (fun x => !(seen.contains (batchKey x)))).filter
            (fun x => batchKey x ≠ batchKey e) := by
        rw [List.filter_filter]
        apply List.filter_congr
        intro a _
        by_cases h1 : batchKey a ∈ seen <;>
          by_cases h2 : batchKey a = batchKey e <;>
            simp [h1, h2]
      rw [hff]
      simp

/-- The seen-set fold of `_deduplicate_and_sort_events` equals the
first-occurrence recursion transcribed from the claim. -/
theorem keep_first_by_key_eq_spec (l : List OutEvent) :
    keep_first_by_key l = keepFirstSpec l := by
  unfold keep_first_by_key
  rw [keep_first_aux l [] []]
  simp

/-- C10: the batch-level pass keeps only the first occurrence of each
(name, date, sorted-speakers) key, discarding later duplicates entirely and
merging no fields, then stable-sorts the survivors by parsed date per
`sortOrder`; in particular two events equal in name, date and speakers but
differing in `url` or `location` collapse to the first one, and in the route's
workflow this happens inside `extract_events_in_batches`, before the
(name, date, location) merger `dedupe_events` ever runs. -/
theorem C10_batch_dedupe_keeps_first (l : List OutEvent) (so : String) (e1 e2 : OutEvent)
    (hk : batchKey e1 = batchKey e2) :
    deduplicate_and_sort_events l so = insertionSortLe (outDateLe so) (keepFirstSpec l) ∧
    deduplicate_and_sort_events [e1, e2] so = [e1] ∧
    (∀ raw oracle bs mp, execute_search_workflow raw oracle bs mp so =
      if raw = [] then [] else
        dedupe_events (extract_events_in_batches oracle raw bs mp so)) := by
  refine ⟨?_, ?_, fun _ _ _ _ => rfl⟩
  · rw [deduplicate_and_sort_events, keep_first_by_key_eq_spec]
  · simp [deduplicate_and_sort_events, keep_first_by_key, ← hk, insertionSortLe, insertLe]

/-- Witness for C10: two events equal in name, date and speakers, differing in
both `url` and `location`, collapse to the first one. -/
theorem C10_witness :
    deduplicate_and_sort_events
      [⟨some "A", some "2025-05-01", some "L1", some "u1", ["x"], "online"⟩,
       ⟨some "A", some "2025-05-01", some "L2", some "u2", ["x"], "online"⟩] "asc" =
      [⟨some "A", some "2025-05-01", some "L1", some "u1", ["x"], "online"⟩] :=
  (C10_batch_dedupe_keeps_first [] "asc"
    ⟨some "A", some "2025-05-01", some "L1", some "u1", ["x"], "online"⟩
    ⟨some "A", some "2025-05-01", some "L2", some "u2", ["x"], "online"⟩ (by decide)).2.1

/-! ## C2 / C8 — the deduplicating merger -/

theorem filterMap_congr_mem {α β : Type} {l : List α} {f g : α → Option β}
    (h : ∀ a ∈ l, f a = g a) : l.filterMap f = l.filterMap g := by
  induction l with
  | nil => rfl
  | cons a t ih =>
    rw [List.filterMap_cons, List.filterMap_cons, h a (by simp),
      ih (fun a ha => h a (by simp [ha]))]

theorem filterMap_const_of_isSome {κ β : Type} (f : κ → Option β) :
    ∀ (K : List κ), (∀ k ∈ K, (f k).isSome) →
      K.filterMap (fun k => (f k).map (fun _ => k)) = K := by
  intro K
  induction K with
  | nil => intro _; rfl
  | cons k t ih =>
    intro h
    rw [List.filterMap_cons]
    cases hf : f k with
    | none =>
      have hs := h k (by simp)
      rw [hf] at hs
      simp at hs
    | some v =>
      simp only [hf, Option.map_some']
      rw [ih (fun k hk => h k (by simp [hk]))]

theorem first_keys_append (l : List OutEvent) (e : OutEvent) :
    first_keys (l ++ [e]) =
      (if (first_keys l).contains (dkey e) then first_keys l
       else first_keys l ++ [dkey e]) := by
  unfold first_keys
  rw [List.foldl_append]
  rfl

theorem mem_first_keys_foldl :
    ∀ (l : List OutEvent) (acc : List (String × String × String))
      (k : String × String × String),
      k ∈ l.foldl (fun ks e => if ks.contains (dkey e) then ks else ks ++ [dkey e]) acc ↔
        k ∈ acc ∨ ∃ e ∈ l, dkey e = k := by
  intro l
  induction l with
  | nil =>
    intro acc k
    simp
  | cons e t ih =>
    intro acc k
    rw [List.foldl_cons]
    by_cases hc : acc.contains (dkey e) = true
    · rw [if_pos hc, ih]
      have hm : dkey e ∈ acc := by simpa using hc
      constructor
      · rintro (h | ⟨x, hx, hk⟩)
        · exact Or.inl h
        · exact Or.inr ⟨x, by simp [hx], hk⟩
      · rintro (h | ⟨x, hx, hk⟩)
        · exact Or.inl h
        · rcases List.mem_cons.mp hx with rfl | hx'
          · exact Or.inl (hk ▸ hm)
          · exact Or.inr ⟨x, hx', hk⟩
    · rw [if_neg hc, ih]
      constructor
      · rintro (h | ⟨x, hx, hk⟩)
        · rcases List.mem_append.mp h with h' | h'
          · exact Or.inl h'
          · have : k = dkey e := by simpa using h'
            exact Or.inr ⟨e, by simp, this.symm⟩
        · exact Or.inr ⟨x, by simp [hx], hk⟩
      · rintro (h | ⟨x, hx, hk⟩)
        · exact Or.inl (List.mem_append.mpr (Or.inl h))
        · rcases List.mem_cons.mp hx with rfl | hx'
          · exact Or.inl (List.mem_append.mpr (Or.inr (by simp [hk])))
          · exact Or.inr ⟨x, hx', hk⟩

theorem mem_first_keys {l : List OutEvent} {k : String × String × String} :
    k ∈ first_keys l ↔ ∃ e ∈ l, dkey e = k := by
  unfold first_keys
  rw [mem_first_keys_foldl]
  simp

theorem group_merge_isSome {l : List OutEvent} {k : String × String × String}
    (h : ∃ e ∈ l, dkey e = k) : (group_merge l k).isSome := by
  obtain ⟨e, he, hk⟩ := h
  unfold group_merge
  have hm : e ∈ l.filter (fun x => dkey x = k) := List.mem_filter.mpr ⟨he, by simp [hk]⟩
  cases hf : l.filter (fun x => dkey x = k) with
  | nil =>
    rw [hf] at hm
    simp at hm
  | cons a t => rfl

theorem group_merge_eq_none {l : List OutEvent} {k : String × String × String}
    (h : ¬ ∃ e ∈ l, dkey e = k) : group_merge l k = none := by
  unfold group_merge
  have hf : l.filter (fun x => dkey x = k) = [] := by
    rw [List.filter_eq_nil_iff]
    intro a ha
    simp only [decide_eq_true_eq]
    exact fun hk => h ⟨a, ha, hk⟩
  rw [hf]

theorem group_merge_append_ne {l : List OutEvent} {e : OutEvent}
    {k : String × String × String} (h : dkey e ≠ k) :
    group_merge (l ++ [e]) k = group_merge l k := by
  unfold group_merge
  rw [List.filter_append]
  have hs : [e].filter (fun x => dkey x = k) = [] := by simp [h]
  rw [hs, List.append_nil]

theorem group_merge_append_eq (l : List OutEvent) (e : OutEvent) :
    group_merge (l ++ [e]) (dkey e) =
      (match group_merge l (dkey e) with
       | none => some e
       | some v => some (merge_into v e)) := by
  unfold group_merge
  rw [List.filter_append]
  have hs : [e].filter (fun x => dkey x = dkey e) = [e] := by simp
  rw [hs]
  cases hf : l.filter (fun x => dkey x = dkey e) with
  | nil => rfl
  | cons a t =>
    simp only [List.cons_append]
    rw [List.foldl_append]
    rfl

theorem group_acc_map_fst (l : List OutEvent) :
    (group_acc l).map Prod.fst = first_keys l := by
  unfold group_acc
  rw [List.map_filterMap]
  have h1 : ∀ k ∈ first_keys l,
      ((group_merge l k).map (fun v => (k, v))).map Prod.fst =
        (group_merge l k).map (fun _ => k) := by
    intro k _
    cases group_merge l k <;> rfl
  rw [filterMap_congr_mem h1]
  exact filterMap_const_of_isSome _ _ (fun k hk => group_merge_isSome (mem_first_keys.mp hk))

theorem insert_event_group_acc (l : List OutEvent) (e : OutEvent) :
    insert_event (group_acc l) e = group_acc (l ++ [e]) := by
  by_cases hmem : ∃ x ∈ l, dkey x = dkey e
  · have hk : dkey e ∈ first_keys l := mem_first_keys.mpr hmem
    have hc : ((group_acc l).map Prod.fst).contains (dkey e) = true := by
      rw [group_acc_map_fst]
      simpa using hk
    unfold insert_event
    rw [if_pos hc]
    have hfk : first_keys (l ++ [e]) = first_keys l := by
      rw [first_keys_append, if_pos (by simpa using hk)]
    unfold group_acc
    rw [hfk, List.map_filterMap]
    apply filterMap_congr_mem
    intro k hkK
    by_cases hke : k = dkey e
    · subst hke
      have hs := group_merge_isSome (mem_first_keys.mp hkK)
      cases hgm : group_merge l (dkey e) with
      | none =>
        rw [hgm] at hs
        simp at hs
      | some v =>
        rw [group_merge_append_eq, hgm]
        simp
    · have hke' : dkey e ≠ k := fun h => hke h.symm
      rw [group_merge_append_ne hke']
      cases group_merge l k with
      | none => rfl
      | some v => simp [hke]
  · have hk : dkey e ∉ first_keys l := fun h => hmem (mem_first_keys.mp h)
    have hc : ((group_acc l).map Prod.fst).contains (dkey e) = false := by
      rw [group_acc_map_fst]
      simpa using hk
    unfold insert_event
    rw [if_neg (by simp only [hc]; exact Bool.false_ne_true)]
    have hfk : first_keys (l ++ [e]) = first_keys l ++ [dkey e] := by
      rw [first_keys_append, if_neg (by simpa using hk)]
    unfold group_acc
    rw [hfk, List.filterMap_append]
    congr 1
    · apply filterMap_congr_mem
      intro k hkK
      have hke : dkey e ≠ k := fun h => hk (h ▸ hkK)
      rw [group_merge_append_ne hke]
    · rw [List.filterMap_cons]
      rw [group_merge_append_eq, group_merge_eq_none hmem]
      rfl

theorem dedupe_foldl_eq_group_acc (l : List OutEvent) :
    l.foldl insert_event [] = group_acc l := by
  induction l using List.reverseRecOn with
  | nil => rfl
  | append_singleton l e ih =>
    rw [List.foldl_append, List.foldl_cons, List.foldl_nil, ih, insert_event_group_acc]

theorem group_acc_map_snd (l : List OutEvent) :
    (group_acc l).map Prod.snd = dedupe_events_spec l := by
  unfold group_acc dedupe_events_spec
  rw [List.map_filterMap]
  apply filterMap_congr_mem
  intro k _
  cases group_merge l k <;> rfl

/-- C2: `dedupe_events` groups events by the normalized
(name, date, location) key; the first occurrence of a key is the kept record,
every later occurrence with an equal key is merged into it in input order
(speakers unioned and re-sorted, `url`/`location` filled only when the kept
record's field is falsy); the output has exactly one record per distinct key,
in first-seen key order — i.e. the implementation equals the claim-side
group-by description `dedupe_events_spec`. -/
theorem C2_dedupe_matches_spec (events : List OutEvent) :
    dedupe_events events = dedupe_events_spec events := by
  rw [dedupe_events, dedupe_foldl_eq_group_acc, group_acc_map_snd]

theorem dkey_merge_into {a b : OutEvent} (h : dkey b = dkey a) :
    dkey (merge_into a b) = dkey a := by
  have hloc : pynorm b.location = pynorm a.location := congrArg (fun p => p.2.2) h
  unfold merge_into
  dsimp only
  split_ifs <;> simp [dkey, hloc]

theorem dkey_foldl_merge {k : String × String × String} :
    ∀ (r : List OutEvent) (a : OutEvent),
      dkey a = k → (∀ x ∈ r, dkey x = k) → dkey (r.foldl merge_into a) = k := by
  intro r
  induction r with
  | nil =>
    intro a ha _
    exact ha
  | cons x t ih =>
    intro a ha hr
    rw [List.foldl_cons]
    have hx : dkey x = dkey a := (hr x (by simp)).trans ha.symm
    exact ih (merge_into a x) ((dkey_merge_into hx).trans ha)
      (fun y hy => hr y (by simp [hy]))

theorem group_merge_key {l : List OutEvent} {k : String × String × String} {v : OutEvent}
    (h : group_merge l k = some v) : dkey v = k := by
  unfold group_merge at h
  cases hf : l.filter (fun x => dkey x = k) with
  | nil =>
    rw [hf] at h
    simp at h
  | cons a t =>
    rw [hf] at h
    have hv : t.foldl merge_into a = v := by
      simpa using h
    have ha : dkey a = k := by
      have hma : a ∈ l.filter (fun x => dkey x = k) := by
        rw [hf]
        simp
      simpa using (List.mem_filter.mp hma).2
    have ht : ∀ x ∈ t, dkey x = k := by
      intro x hx
      have hmx : x ∈ l.filter (fun y => dkey y = k) := by
        rw [hf]
        simp [hx]
      simpa using (List.mem_filter.mp hmx).2
    rw [← hv]
    exact dkey_foldl_merge t a ha ht

theorem first_keys_foldl_nodup :
    ∀ (l : List OutEvent) (acc : List (String × String × String)), acc.Nodup →
      (l.foldl (fun ks e => if ks.contains (dkey e) then ks else ks ++ [dkey e]) acc).Nodup := by
  intro l
  induction l with
  | nil =>
    intro acc h
    exact h
  | cons e t ih =>
    intro acc h
    rw [List.foldl_cons]
    by_cases hc : acc.contains (dkey e) = true
    · rw [if_pos hc]
      exact ih acc h
    · rw [if_neg hc]
      apply ih
      have hm : dkey e ∉ acc := by simpa using hc
      exact ((List.perm_append_singleton _ _).nodup_iff).mpr (List.nodup_cons.mpr ⟨hm, h⟩)

theorem first_keys_nodup (l : List OutEvent) : (first_keys l).Nodup :=
  first_keys_foldl_nodup l [] List.nodup_nil

theorem dedupe_events_map_dkey (l : List OutEvent) :
    (dedupe_events l).map dkey = first_keys l := by
  rw [dedupe_events, dedupe_foldl_eq_group_acc, List.map_map]
  have hpt : ∀ p ∈ group_acc l, (dkey ∘ Prod.snd) p = Prod.fst p := by
    intro p hp
    obtain ⟨k, _, hpk⟩ := List.mem_filterMap.mp hp
    cases hgm : group_merge l k with
    | none =>
      rw [hgm] at hpk
      simp at hpk
    | some v =>
      rw [hgm] at hpk
      simp only [Option.map_some', Option.some.injEq] at hpk
      rw [← hpk]
      exact group_merge_key hgm
  rw [List.map_congr_left hpt]
  exact group_acc_map_fst l

theorem dedupe_foldl_nodup :
    ∀ (l : List OutEvent) (acc : List ((String × String × String) × OutEvent)),
      (acc.map Prod.fst ++ l.map dkey).Nodup →
      l.foldl insert_event acc = acc ++ l.map (fun e => (dkey e, e)) := by
  intro l
  induction l with
  | nil =>
    intro acc _
    simp
  | cons e t ih =>
    intro acc h
    rw [List.foldl_cons]
    have hne : dkey e ∉ acc.map Prod.fst := by
      intro hmem
      have hdisj := (List.nodup_append.mp h).2.2
      exact (hdisj hmem) (by simp)
    have hc : (acc.map Prod.fst).contains (dkey e) = false := by simpa using hne
    have hstep : insert_event acc e = acc ++ [(dkey e, e)] := by
      unfold insert_event
      rw [if_neg (by simp only [hc]; exact Bool.false_ne_true)]
    rw [hstep, ih (acc ++ [(dkey e, e)]) (by simpa [List.append_assoc] using h)]
    simp

theorem dedupe_events_of_nodup {l : List OutEvent} (h : (l.map dkey).Nodup) :
    dedupe_events l = l := by
  rw [dedupe_events, dedupe_foldl_nodup l [] (by simpa using h)]
  simp only [List.nil_append, List.map_map]
  have hid : ∀ x ∈ l, (Prod.snd ∘ fun e => (dkey e, e)) x = x := fun x _ => rfl
  rw [List.map_congr_left hid, List.map_id']

/-- C8: the deduplicator is idempotent, and merging two events with the same
key produces exactly one record whose speaker set is the union of both
events' speaker sets (re-sorted). -/
theorem C8_idempotent_union (x : List OutEvent) (e1 e2 : OutEvent) (s : String)
    (hk : dkey e1 = dkey e2) :
    dedupe_events (dedupe_events x) = dedupe_events x ∧
    dedupe_events [e1, e2] = [merge_into e1 e2] ∧
    (s ∈ (merge_into e1 e2).speakers ↔ s ∈ e1.speakers ∨ s ∈ e2.speakers) := by
  refine ⟨?_, ?_, ?_⟩
  · apply dedupe_events_of_nodup
    rw [dedupe_events_map_dkey]
    exact first_keys_nodup x
  · simp [dedupe_events, insert_event, ← hk]
  · have hsp : (merge_into e1 e2).speakers = sortedUnion e1.speakers e2.speakers := by
      unfold merge_into
      dsimp only
      split_ifs <;> rfl
    rw [hsp]
    simp [sortedUnion, sortStrings, mem_insertionSortLe, List.mem_dedup, List.mem_append]

/-- Witness for C8: two records of the same real-world event with overlapping
speaker lists and differently-cased keys; the double application equals the
single one and the merged speakers are the union. -/
theorem C8_witness :
    dedupe_events (dedupe_events
      [⟨some "TechConf", some "2026-05-01", some "San Francisco", none, ["Jane Doe", "Bob"], "in-person"⟩,
       ⟨some "techconf ", some "2026-05-01", some "san francisco", some "u", ["Jane Doe", "Carol"], "in-person"⟩]) =
    dedupe_events
      [⟨some "TechConf", some "2026-05-01", some "San Francisco", none, ["Jane Doe", "Bob"], "in-person"⟩,
       ⟨some "techconf ", some "2026-05-01", some "san francisco", some "u", ["Jane Doe", "Carol"], "in-person"⟩] ∧
    dedupe_events
      [⟨some "TechConf", some "2026-05-01", some "San Francisco", none, ["Jane Doe", "Bob"], "in-person"⟩,
       ⟨some "techconf ", some "2026-05-01", some "san francisco", some "u", ["Jane Doe", "Carol"], "in-person"⟩] =
      [merge_into
        ⟨some "TechConf", some "2026-05-01", some "San Francisco", none, ["Jane Doe", "Bob"], "in-person"⟩
        ⟨some "techconf ", some "2026-05-01", some "san francisco", some "u", ["Jane Doe", "Carol"], "in-person"⟩] ∧
    ("Carol" ∈ (merge_into
        ⟨some "TechConf", some "2026-05-01", some "San Francisco", none, ["Jane Doe", "Bob"], "in-person"⟩
        ⟨some "techconf ", some "2026-05-01", some "san francisco", some "u", ["Jane Doe", "Carol"], "in-person"⟩).speakers ↔
      "Carol" ∈ ["Jane Doe", "Bob"] ∨ "Carol" ∈ ["Jane Doe", "Carol"]) :=
  C8_idempotent_union
    [⟨some "TechConf", some "2026-05-01", some "San Francisco", none, ["Jane Doe", "Bob"], "in-person"⟩,
     ⟨some "techconf ", some "2026-05-01", some "san francisco", some "u", ["Jane Doe", "Carol"], "in-person"⟩]
    ⟨some "TechConf", some "2026-05-01", some "San Francisco", none, ["Jane Doe", "Bob"], "in-person"⟩
    ⟨some "techconf ", some "2026-05-01", some "san francisco", some "u", ["Jane Doe", "Carol"], "in-person"⟩
    "Carol" (by decide)

/-! ## C1 — the budgeted combiner -/

theorem joinNewline_length (l : List String) : (joinNewline l).length = joinLen l := by
  match l with
  | [] => rfl
  | [a] => rfl
  | a :: b :: t =>
    rw [show joinNewline (a :: b :: t) = a ++ "\n" ++ joinNewline (b :: t) from rfl,
      show joinLen (a :: b :: t) = a.length + 1 + joinLen (b :: t) from rfl,
      String.length_append, String.length_append, joinNewline_length (b :: t)]
    rfl

theorem joinLen_append3 (l : List String) (a b c : String) :
    joinLen (l ++ [a, b, c]) =
      joinLen l + a.length + b.length + c.length + (if l = [] then 2 else 3) := by
  induction l with
  | nil =>
    rw [List.nil_append, if_pos rfl]
    rw [show joinLen [a, b, c] = a.length + 1 + joinLen [b, c] from rfl,
      show joinLen [b, c] = b.length + 1 + joinLen [c] from rfl,
      show joinLen [c] = c.length from rfl,
      show joinLen ([] : List String) = 0 from rfl]
    omega
  | cons x t ih =>
    cases t with
    | nil =>
      rw [show ([x] ++ [a, b, c]) = [x, a, b, c] from rfl,
        show joinLen [x, a, b, c] = x.length + 1 + joinLen [a, b, c] from rfl,
        show joinLen [a, b, c] = a.length + 1 + joinLen [b, c] from rfl,
        show joinLen [b, c] = b.length + 1 + joinLen [c] from rfl,
        show joinLen [c] = c.length from rfl,
        show joinLen [x] = x.length from rfl, if_neg (by simp)]
      omega
    | cons y u =>
      rw [show ((x :: y :: u) ++ [a, b, c]) = x :: ((y :: u) ++ [a, b, c]) from rfl]
      rw [show joinLen (x :: ((y :: u) ++ [a, b, c])) =
        x.length + 1 + joinLen ((y :: u) ++ [a, b, c]) from rfl]
      rw [ih, if_neg (by simp), if_neg (by simp)]
      rw [show joinLen (x :: y :: u) = x.length + 1 + joinLen (y :: u) from rfl]
      omega

theorem joinLen_append1 (l : List String) (a : String) :
    joinLen (l ++ [a]) = joinLen l + a.length + (if l = [] then 0 else 1) := by
  induction l with
  | nil =>
    rw [List.nil_append, if_pos rfl]
    rw [show joinLen [a] = a.length from rfl, show joinLen ([] : List String) = 0 from rfl]
    omega
  | cons x t ih =>
    cases t with
    | nil =>
      rw [show ([x] ++ [a]) = [x, a] from rfl,
        show joinLen [x, a] = x.length + 1 + joinLen [a] from rfl,
        show joinLen [a] = a.length from rfl,
        show joinLen [x] = x.length from rfl, if_neg (by simp)]
      omega
    | cons y u =>
      rw [show ((x :: y :: u) ++ [a]) = x :: ((y :: u) ++ [a]) from rfl]
      rw [show joinLen (x :: ((y :: u) ++ [a])) =
        x.length + 1 + joinLen ((y :: u) ++ [a]) from rfl]
      rw [ih, if_neg (by simp), if_neg (by simp)]
      rw [show joinLen (x :: y :: u) = x.length + 1 + joinLen (y :: u) from rfl]
      omega

theorem string_mk_length (l : List Char) : (String.mk l).length = l.length := rfl

theorem sourceBlock_length (q md : String) :
    (sourceBlock q md).length = 23 + q.length + md.length := by
  have h1 : ("Source: " : String).length = 8 := rfl
  have h2 : ("\nContent: " : String).length = 10 := rfl
  have h3 : ("\n---\n" : String).length = 5 := rfl
  simp only [sourceBlock, String.length_append, h1, h2, h3]
  omega

theorem truncationMarker_length (f : String) :
    (truncationMarker f).length = 57 + f.length := by
  have h1 : ("\n[SOURCE TRUNCATED FOR TOKEN LIMIT - Speaker mentioned: " : String).length = 56 :=
    rfl
  have h2 : ("]" : String).length = 1 := rfl
  simp only [truncationMarker, String.length_append, h1, h2]
  omega

theorem omissionSummary_length (o m : Nat) :
    (omissionSummary o m).length = 113 + (toString o).length + (toString m).length := by
  have h1 : ("\n[CONTENT OPTIMIZED FOR ACCURACY - " : String).length = 35 := rfl
  have h2 : (" additional sources omitted, " : String).length = 29 := rfl
  have h3 : (" sources with explicit speaker mentions included]" : String).length = 49 := rfl
  simp only [omissionSummary, String.length_append, h1, h2, h3]
  omega

theorem mentionRendering_length_le (sp : Option String) (md : String) :
    (mentionRendering sp md).length ≤ 5 := by
  cases sp with
  | none =>
    show ("None" : String).length ≤ 5
    decide
  | some s =>
    show ((if s = "" then ""
      else if strHasSub (pylower md) (pylower s) then "True" else "False" : String)).length ≤ 5
    split_ifs <;> decide

set_option maxRecDepth 4000 in
theorem toString_length_le {n : Nat} (h : n < 600) : (toString n).length ≤ 3 :=
  (by decide : ∀ m, m < 600 → (toString m).length ≤ 3) n h

theorem smart_combine_loop_bound (sp : Option String) (mc total : Nat) :
    ∀ (rest : List Item) (st : CombineState),
      (∀ r ∈ rest, (sourceBlock (r.metaQuery.getD "N/A") (r.markdown.getD "")).length ≤ mc) →
      (∀ r ∈ rest, (r.metaQuery.getD "N/A").length ≤ 300) →
      (∀ r ∈ rest, sourceTypeOf (r.metaQuery.getD "N/A") ≠ none) →
      total ≤ 99 →
      st.speaker_mentions + rest.length ≤ 500 →
      ((st.sources_included = 0 ∧ st.content = [] ∧ st.total_chars = 0) ∨
        (0 < st.sources_included ∧ st.content ≠ [] ∧ joinLen st.content + 1 = st.total_chars)) →
      st.total_chars ≤ mc →
      ∃ st2, smart_combine_loop sp mc total rest st = .ok st2 ∧
        joinLen st2.content ≤ mc + 130 := by
  intro rest
  induction rest with
  | nil =>
    intro st _ _ _ _ _ hinv htc
    refine ⟨st, rfl, ?_⟩
    rcases hinv with ⟨_, hcnil, _⟩ | ⟨_, _, hj⟩
    · rw [hcnil, show joinLen ([] : List String) = 0 from rfl]
      omega
    · omega
  | cons r t ih =>
    intro st hblocks hquery hstype htotal hment hinv htc
    have hment' : st.speaker_mentions + (t.length + 1) ≤ 500 := by simpa using hment
    simp only [smart_combine_loop]
    by_cases hmd : pytrim (r.markdown.getD "") = ""
    · rw [if_pos hmd]
      exact ih st (fun x hx => hblocks x (List.mem_cons_of_mem _ hx))
        (fun x hx => hquery x (List.mem_cons_of_mem _ hx))
        (fun x hx => hstype x (List.mem_cons_of_mem _ hx))
        htotal (by omega) hinv htc
    · rw [if_neg hmd]
      cases hst : sourceTypeOf (r.metaQuery.getD "N/A") with
      | none => exact absurd hst (hstype r (List.mem_cons_self _ _))
      | some stype =>
        dsimp only
        set st1 := if mentionFlag sp (r.markdown.getD "") = true
          then { st with speaker_mentions := st.speaker_mentions + 1 } else st with hst1def
        have h1c : st1.content = st.content := by
          rw [hst1def]
          split_ifs <;> rfl
        have h1t : st1.total_chars = st.total_chars := by
          rw [hst1def]
          split_ifs <;> rfl
        have h1k : st1.sources_included = st.sources_included := by
          rw [hst1def]
          split_ifs <;> rfl
        have h1m : st1.speaker_mentions ≤ st.speaker_mentions + 1 := by
          rw [hst1def]
          split_ifs <;> simp
        have hQ : (r.metaQuery.getD "N/A").length ≤ 300 :=
          hquery r (List.mem_cons_self _ _)
        have hB : (sourceBlock (r.metaQuery.getD "N/A") (r.markdown.getD "")).length ≤ mc :=
          hblocks r (List.mem_cons_self _ _)
        have hBlen := sourceBlock_length (r.metaQuery.getD "N/A") (r.markdown.getD "")
        by_cases hov : mc < st1.total_chars +
            (sourceBlock (r.metaQuery.getD "N/A") (r.markdown.getD "")).length ∧
            0 < st1.sources_included
        · rw [if_pos hov]
          have hk1 : 0 < st.sources_included := h1k ▸ hov.2
          have hcinv : st.content ≠ [] ∧ joinLen st.content + 1 = st.total_chars := by
            rcases hinv with ⟨h0, _, _⟩ | ⟨_, hne, hj⟩
            · omega
            · exact ⟨hne, hj⟩
          by_cases htr : st1.total_chars + 3400 < mc ∧
              (mentionFlag sp (r.markdown.getD "") = true ∨
                ¬ st1.source_types.contains stype = true)
          · rw [if_pos htr]
            refine ⟨_, rfl, ?_⟩
            show joinLen (st1.content ++
              ["Source: " ++ r.metaQuery.getD "N/A",
               "Content: " ++ (String.mk ((r.markdown.getD "").toList.take
                  (mc - st1.total_chars - 400)) ++
                 truncationMarker (mentionRendering sp (r.markdown.getD ""))),
               "---"]) ≤ mc + 130
            rw [h1c, h1t, joinLen_append3, if_neg hcinv.1]
            have hlen1 : ("Source: " ++ r.metaQuery.getD "N/A").length =
                8 + (r.metaQuery.getD "N/A").length := by
              rw [String.length_append, show ("Source: " : String).length = 8 from rfl]
            have hlen2 : ("Content: " ++ (String.mk ((r.markdown.getD "").toList.take
                  (mc - st.total_chars - 400)) ++
                truncationMarker (mentionRendering sp (r.markdown.getD "")))).length =
                9 + min (mc - st.total_chars - 400) (r.markdown.getD "").toList.length +
                  (57 + (mentionRendering sp (r.markdown.getD "")).length) := by
              rw [String.length_append, String.length_append, truncationMarker_length]
              rw [show (String.mk ((r.markdown.getD "").toList.take
                    (mc - st.total_chars - 400))).length =
                  min (mc - st.total_chars - 400) (r.markdown.getD "").toList.length
                from List.length_take _ _]
              rw [show ("Content: " : String).length = 9 from rfl]
              omega
            have hlen3 : ("---" : String).length = 3 := rfl
            rw [hlen1, hlen2, hlen3]
            have hrend := mentionRendering_length_le sp (r.markdown.getD "")
            have htr1 : st.total_chars + 3400 < mc := h1t ▸ htr.1
            have hj := hcinv.2
            omega
          · rw [if_neg htr]
            refine ⟨_, rfl, ?_⟩
            show joinLen (st1.content ++
              [omissionSummary (total - st1.sources_included) st1.speaker_mentions]) ≤ mc + 130
            rw [h1c, joinLen_append1, if_neg hcinv.1, omissionSummary_length]
            have hd1 : (toString (total - st1.sources_included)).length ≤ 3 :=
              toString_length_le (by omega)
            have hd2 : (toString st1.speaker_mentions).length ≤ 3 :=
              toString_length_le (by omega)
            have hj := hcinv.2
            omega
        · rw [if_neg hov]
          have htc' : st1.total_chars +
              (sourceBlock (r.metaQuery.getD "N/A") (r.markdown.getD "")).length ≤ mc := by
            rcases hinv with ⟨h0, _, ht0⟩ | ⟨hkpos, _, _⟩
            · rw [h1t, ht0]
              simpa using hB
            · rw [h1t]
              have : ¬ (mc < st1.total_chars +
                  (sourceBlock (r.metaQuery.getD "N/A") (r.markdown.getD "")).length) := by
                intro hlt
                exact hov ⟨hlt, h1k ▸ hkpos⟩
              omega
          apply ih
          · exact fun x hx => hblocks x (List.mem_cons_of_mem _ hx)
          · exact fun x hx => hquery x (List.mem_cons_of_mem _ hx)
          · exact fun x hx => hstype x (List.mem_cons_of_mem _ hx)
          · exact htotal
          · show st1.speaker_mentions + t.length ≤ 500
            omega
          · refine Or.inr ⟨Nat.succ_pos _, by simp, ?_⟩
            show joinLen (st1.content ++
              ["Source: " ++ r.metaQuery.getD "N/A",
               "Content: " ++ r.markdown.getD "", "---"]) + 1 =
              st1.total_chars +
                (sourceBlock (r.metaQuery.getD "N/A") (r.markdown.getD "")).length
            have hlen1 : ("Source: " ++ r.metaQuery.getD "N/A").length =
                8 + (r.metaQuery.getD "N/A").length := by
              rw [String.length_append, show ("Source: " : String).length = 8 from rfl]
            have hlen2 : ("Content: " ++ r.markdown.getD "").length =
                9 + (r.markdown.getD "").length := by
              rw [String.length_append, show ("Content: " : String).length = 9 from rfl]
            have hlen3 : ("---" : String).length = 3 := rfl
            rw [h1c, h1t, joinLen_append3, hlen1, hlen2, hlen3]
            rcases hinv with ⟨h0, hce, ht0⟩ | ⟨hkpos, hcne, hj⟩
            · rw [hce, ht0, if_pos rfl, show joinLen ([] : List String) = 0 from rfl]
              omega
            · rw [if_neg hcne]
              omega
          · exact htc'

set_option maxRecDepth 10000 in
/-- C1 counterexample: the loop adds the first prioritized source
unconditionally (`sources_included > 0` guards the budget check), so a single
source whose block exceeds the budget is emitted in full.  With
`maxChars = 10` and one 150-character body the combiner returns 173
characters, more than `maxChars` plus either annotation's length. -/
theorem C1_counterexample :
    (smart_combine_markdown
        [⟨none, some (String.mk (List.replicate 150 'a')), some "q", none⟩]
        (some 10) none).map String.length = Except.ok 173 ∧
    10 + (truncationMarker "True").length < 173 ∧
    10 + (omissionSummary 1 1).length < 173 :=
  ⟨rfl, by decide, by decide⟩

/-- C1 (amended): when every result's source block fits within `maxChars`,
every query is at most 300 characters, no query is whitespace-only, and there
are at most 99 results, the combiner succeeds and its output exceeds
`maxChars` by at most 130 characters (the length of one truncation or
omission annotation).  Without the first hypothesis the bound fails, because
the first prioritized source is always included in full. -/
theorem C1_amended (results : List Item) (mc : Nat) (sp : Option String)
    (hmc : mc ≠ 0) (hlen : results.length ≤ 99)
    (hblocks : ∀ r ∈ results,
      (sourceBlock (r.metaQuery.getD "N/A") (r.markdown.getD "")).length ≤ mc)
    (hquery : ∀ r ∈ results, (r.metaQuery.getD "N/A").length ≤ 300)
    (hstype : ∀ r ∈ results, sourceTypeOf (r.metaQuery.getD "N/A") ≠ none) :
    ∃ s, smart_combine_markdown results (some mc) sp = .ok s ∧ s.length ≤ mc + 130 := by
  have hlen' : (prioritize_sources_by_accuracy results sp).length = results.length :=
    length_insertionSortLe _ _
  obtain ⟨st2, hloop, hbound⟩ :=
    smart_combine_loop_bound sp mc (prioritize_sources_by_accuracy results sp).length
      (prioritize_sources_by_accuracy results sp) ⟨[], 0, 0, [], 0⟩
      (fun x hx => hblocks x (mem_insertionSortLe.mp hx))
      (fun x hx => hquery x (mem_insertionSortLe.mp hx))
      (fun x hx => hstype x (mem_insertionSortLe.mp hx))
      (by omega)
      (by simp [hlen']; omega)
      (Or.inl ⟨rfl, rfl, rfl⟩)
      (Nat.zero_le mc)
  refine ⟨joinNewline st2.content, ?_, ?_⟩
  · rw [smart_combine_markdown,
      if_neg (by simp [hmc] : ¬(some mc = none ∨ some mc = some 0))]
    show Except.map (fun st => joinNewline st.content)
      (smart_combine_loop sp mc (prioritize_sources_by_accuracy results sp).length
        (prioritize_sources_by_accuracy results sp) ⟨[], 0, 0, [], 0⟩) =
      Except.ok (joinNewline st2.content)
    rw [hloop]
    rfl
  · rw [joinNewline_length]
    exact hbound

/-- Witness for C1 (amended) at a small concrete instance staying far under
the budget. -/
theorem C1_witness :
    ∃ s, smart_combine_markdown [⟨none, some "hello", some "ab", none⟩] (some 5000) none =
        .ok s ∧ s.length ≤ 5000 + 130 :=
  C1_amended [⟨none, some "hello", some "ab", none⟩] 5000 none
    (by decide) (by decide) (by decide) (by decide) (by decide)
